import Mathlib

/-!
Verification development for the RWS data-downtime highlighting service.

The repository consists of four Python modules:
* `buoys.py` — a permissive range loader (`load_ranges_csv_simple`) with a
  hardcoded fallback table, and the `WQ_Buoy.highlight_out_of_range`
  classifier/styler;
* `toolbox.py` — a strict range loader (`load_ranges`), its verbatim twin
  `load_maintenance`, and a second out-of-range styler
  (`highlight_out_of_range`);
* `main.py` — the upload pipeline: sheet-name deduplication
  (`_unique_sheet_name`), the NA display substitution (`_highlight_df_bytes`)
  and the upload handler (`upload_and_highlight`) with the in-memory
  `LATEST_DOWNLOAD_BYTES` slot;
* `wq_buoy.py` — byte parsing glue.

We shallowly embed the data model: Python strings become `List Char`,
pandas cell values become `Cell` (the NaN sentinel, a number, or a string),
floats become `Rat` (with `Option Rat` where a stored value can be NaN),
pandas dataframes become header lists plus association-list rows, and
Python dicts become association lists with Python's insert/overwrite
semantics (`dictInsert`).  `float(...)`'s raising behaviour is an `Except`,
`pd.to_numeric(errors := coerce)` is an `Option Rat`.
-/

/-! ## Characters, strings, digits -/

/-- Python `str.strip()` on a list of characters: drop whitespace from both
ends. -/
def stripChars (l : List Char) : List Char :=
  ((l.dropWhile Char.isWhitespace).reverse.dropWhile Char.isWhitespace).reverse

/-- Python `str.lower()` (ASCII case fold, which covers all headers used). -/
def lowerChars (l : List Char) : List Char :=
  l.map Char.toLower

/-- Fuelled digit expansion (structural, so it reduces in the kernel);
`fuel ≥ n` always suffices. -/
def natToCharsAux : Nat → Nat → List Char
  | 0, _ => []
  | fuel + 1, n =>
    if n = 0 then [] else natToCharsAux fuel (n / 10) ++ [Nat.digitChar (n % 10)]

/-- Decimal digit characters of a natural number, most significant first
(Python `f"{n}"` for naturals). -/
def natToChars (n : Nat) : List Char :=
  if n = 0 then [Nat.digitChar 0] else natToCharsAux n n

/-- Python `str(int)`. -/
def intToChars (n : Int) : List Char :=
  if n < 0 then '-' :: natToChars n.natAbs else natToChars n.natAbs

/-- Rendering of a rational cell value as text.  This stands in for Python
`str(float)`: the exact decimal spelling is immaterial to the program's
behaviour — all that is ever observed is that the result contains a digit,
hence is never an NA token nor a tracked parameter name. -/
def ratToChars (q : Rat) : List Char :=
  intToChars q.num ++ (if q.den = 1 then [] else '/' :: natToChars q.den)

/-- Value of a block of decimal digit characters. -/
def digitsVal (l : List Char) : Nat :=
  l.foldl (fun acc c => 10 * acc + (c.toNat - '0'.toNat)) 0

/-- Simple decimal parser standing in for `float(...)` / `pd.to_numeric` on a
string: optional sign, then digits with an optional single point, at least
one digit overall. -/
def parseUnsigned (s : List Char) : Option Rat :=
  let intPart := s.takeWhile Char.isDigit
  match s.dropWhile Char.isDigit with
  | [] => if intPart = [] then none else some (mkRat (digitsVal intPart) 1)
  | '.' :: frac =>
    if frac.all Char.isDigit && !(intPart = [] && frac = []) then
      some (mkRat (digitsVal intPart * 10 ^ frac.length + digitsVal frac) (10 ^ frac.length))
    else none
  | _ => none

/-- Numeric parse of trimmed text, with sign handling. -/
def parseNum (s : List Char) : Option Rat :=
  match s with
  | '-' :: rest => (parseUnsigned rest).map (fun q => -q)
  | '+' :: rest => parseUnsigned rest
  | _ => parseUnsigned s

/-! ## Cells -/

/-- A pandas cell value: the numeric-absent sentinel (NaN), a number, or a
string. -/
inductive Cell where
  | na : Cell
  | num : Rat → Cell
  | str : List Char → Cell
deriving DecidableEq

/-- `pd.isna` on a cell. -/
def isNaCell : Cell → Bool
  | .na => true
  | _ => false

/-- Python `str(cell)`: NaN prints as `nan`. -/
def strForm : Cell → List Char
  | .na => "nan".toList
  | .num q => ratToChars q
  | .str s => s

/-- `pd.to_numeric(..., errors="coerce")` on a single cell: numbers pass
through, NaN and unparsable strings coerce to NaN (`none`). -/
def toNumeric : Cell → Option Rat
  | .na => none
  | .num q => some q
  | .str s => parseNum (stripChars s)

/-- Python `float(cell)`: raises (`.error`) on an unparsable string, but
`float(nan)` succeeds and is NaN (`.ok none`). -/
def pyFloat : Cell → Except Unit (Option Rat)
  | .na => .ok none
  | .num q => .ok (some q)
  | .str s =>
    match parseNum (stripChars s) with
    | some q => .ok (some q)
    | none => .error ()

/-! ## Classifier (buoys.WQ_Buoy.highlight_out_of_range, toolbox.highlight_out_of_range) -/

/-- Default `na_tokens` of `WQ_Buoy.highlight_out_of_range`. -/
def defaultNaTokens : List (List Char) :=
  ["N/A", "NA", "na", "n/a", "-", "—", ""].map (fun s => s.toList)

/-- The NA mask of `style_col`:
`col.isna() | col.astype(str).str.strip().isin(na_tokens)`. -/
def isMissing (tokens : List (List Char)) (c : Cell) : Bool :=
  isNaCell c || decide (stripChars (strForm c) ∈ tokens)

/-- Float comparison `a < b` where either side may be NaN (`none`):
any comparison against NaN is false, matching pandas/NumPy. -/
def ltFloat : Option Rat → Option Rat → Bool
  | some a, some b => decide (a < b)
  | _, _ => false

/-- The three cell classifications. -/
inductive Classification where
  | Normal : Classification
  | Missing : Classification
  | OutOfRange : Classification
deriving DecidableEq

/-- The out-of-range mask of `style_col` for a tracked column with bounds
`lo, hi` (possibly NaN): `(vals < lo) | (vals > hi)` with
`vals = pd.to_numeric(col, errors="coerce")`, NaNs comparing false
(the subsequent `.fillna(False)` is a no-op on booleans). -/
def oorFlag (lo hi : Option Rat) (c : Cell) : Bool :=
  ltFloat (toNumeric c) lo || ltFloat hi (toNumeric c)

/-- Per-cell classification realised by `style_col` in
`WQ_Buoy.highlight_out_of_range`: the NA style is laid down first and the
out-of-range style overwrites it; `rng = cls.RANGES.get(col.name)` is `none`
for untracked columns. -/
def classifyCell (rng : Option (Option Rat × Option Rat)) (tokens : List (List Char))
    (c : Cell) : Classification :=
  let naMask := isMissing tokens c
  let oor :=
    match rng with
    | some (lo, hi) => oorFlag lo hi c
    | none => false
  if oor then .OutOfRange else if naMask then .Missing else .Normal

/-- The out-of-range mask of `toolbox.highlight_out_of_range.style_column`
for a column present in `ranges`: `(numeric < min_v) | (numeric > max_v)`. -/
def oorMaskT (minV maxV : Rat) (c : Cell) : Bool :=
  ltFloat (toNumeric c) (some minV) || ltFloat (some maxV) (toNumeric c)

/-! ## Python dicts and dataframe rows -/

/-- Python dict assignment `d[k] = v`: overwrite in place if the key exists,
else append (insertion order preserved). -/
def dictInsert {β : Type} (d : List (List Char × β)) (k : List Char) (v : β) :
    List (List Char × β) :=
  if d.any (fun p => decide (p.1 = k)) then
    d.map (fun p => if p.1 = k then (k, v) else p)
  else d ++ [(k, v)]

/-- Python dict lookup `d.get(k)` (keys are unique by construction, so the
first match is the match). -/
def dictGet {β : Type} (d : List (List Char × β)) (k : List Char) : Option β :=
  (d.find? (fun p => decide (p.1 = k))).map (fun p => p.2)

/-- One dataframe row: column name → cell. -/
abbrev Row : Type := List (List Char × Cell)

/-- `row[h]` (an absent column behaves as NaN; loaders only index columns
they have checked for). -/
def getCell (r : Row) (h : List Char) : Cell :=
  match r.find? (fun p => decide (p.1 = h)) with
  | some p => p.2
  | none => .na

/-- A parsed tabular source: its column headers and its rows. -/
structure RawTable where
  headers : List (List Char)
  rows : List Row

/-- A range-source path as the loaders observe it: the file may be absent,
unreadable/undecodable, or parse into a table. -/
inductive Source where
  | missing : Source
  | unreadable : Source
  | tab : RawTable → Source

/-! ## Permissive loader (buoys.load_ranges_csv_simple) -/

/-- `PARAM_COLS` of `buoys.py`. -/
def PARAM_COLS : List (List Char) :=
  ["Water Temperature (°C)", "Conductivity (μS/cm)", "Turbidity (NTU)",
   "Dissolved Oxygen (mg/L)", "pH", "Chlorophyll-a (μg/L)",
   "Crude Oil (ppm)", "Fine Oil (ppm)"].map (fun s => s.toList)

/-- Ranges as the permissive loader stores them: `float(...)` can legally
produce NaN (`none`) when a min/max cell is the NaN sentinel. -/
abbrev PermRange : Type := Option Rat × Option Rat

/-- `_FALLBACK_RANGES` of `buoys.py`. -/
def fallbackRanges : List (List Char × PermRange) :=
  [("Water Temperature (°C)".toList, (some 26, some 35)),
   ("Conductivity (μS/cm)".toList, (some 42000, some 52000)),
   ("Turbidity (NTU)".toList, (some 0, some 25)),
   ("Dissolved Oxygen (mg/L)".toList, (some 4, some 10)),
   ("pH".toList, (some (mkRat 15 2), some 9)),
   ("Chlorophyll-a (μg/L)".toList, (some 0, some 20)),
   ("Crude Oil (ppm)".toList, (some 0, some (mkRat 1 2))),
   ("Fine Oil (ppm)".toList, (some 0, some (mkRat 1 2)))]

/-- The `required.issubset(df.columns)` check of the permissive loader:
an exact, case-sensitive membership test. -/
def requiredExact (t : RawTable) : Bool :=
  decide ("parameter".toList ∈ t.headers) && decide ("min".toList ∈ t.headers)
    && decide ("max".toList ∈ t.headers)

/-- The row loop of `load_ranges_csv_simple`: keep rows whose trimmed
parameter is a known parameter; `float(row["min"]) / float(row["max"])`
raise out of the loop on unparsable text. -/
def permRows : List Row → List (List Char × PermRange) →
    Except Unit (List (List Char × PermRange))
  | [], d => .ok d
  | r :: rs, d =>
    let p := stripChars (strForm (getCell r ("parameter".toList)))
    if p ∈ PARAM_COLS then
      match pyFloat (getCell r ("min".toList)), pyFloat (getCell r ("max".toList)) with
      | .ok lo, .ok hi => permRows rs (dictInsert d p (lo, hi))
      | _, _ => .error ()
    else permRows rs d

/-- `buoys.load_ranges_csv_simple`: any exception (read failure, missing
required columns, unparsable min/max) is swallowed into the hardcoded
fallback table; otherwise every known parameter the source omitted is
filled in from the fallback. -/
def load_ranges_csv_simple (src : Source) : List (List Char × PermRange) :=
  match src with
  | .missing => fallbackRanges
  | .unreadable => fallbackRanges
  | .tab t =>
    if requiredExact t then
      match permRows t.rows [] with
      | .ok ranges =>
        let missingParams := PARAM_COLS.filter (fun p => (dictGet ranges p).isNone)
        missingParams.foldl
          (fun r p => dictInsert r p ((dictGet fallbackRanges p).getD (none, none))) ranges
      | .error _ => fallbackRanges
    else fallbackRanges

/-! ## Strict loaders (toolbox.load_ranges, toolbox.load_maintenance) -/

/-- `REQUIRED_HEADERS` of `toolbox.py`. -/
def REQUIRED_HEADERS : List (List Char) :=
  ["parameter", "min", "max"].map (fun s => s.toList)

/-- `lower_map[h]`: the Python dict comprehension
`{c.lower(): c for c in df.columns}` keeps the last column per lowered
name. -/
def lowerLookup (headers : List (List Char)) (h : List Char) : Option (List Char) :=
  (headers.filter (fun c => decide (lowerChars c = h))).getLast?

/-- `all(h in lower_map for h in REQUIRED_HEADERS)`. -/
def requiredLowerPresent (t : RawTable) : Bool :=
  REQUIRED_HEADERS.all (fun h => (lowerLookup t.headers h).isSome)

/-- The error taxonomy of the strict loaders. -/
inductive RangeSourceError where
  | fileNotFound : RangeSourceError
  | readError : RangeSourceError
  | missingColumns : RangeSourceError
deriving DecidableEq

/-- View of an `Except` as a sum, to derive decidable equality. -/
def exceptToSum {ε α : Type} : Except ε α → ε ⊕ α
  | .error e => .inl e
  | .ok a => .inr a

instance {ε α : Type} [DecidableEq ε] [DecidableEq α] : DecidableEq (Except ε α) :=
  fun a b =>
    decidable_of_iff (exceptToSum a = exceptToSum b)
      (by cases a <;> cases b <;> simp [exceptToSum])

/-- The original-case column names `pcol, mincol, maxcol` selected via
`lower_map`. -/
def pcolOf (t : RawTable) : List Char := (lowerLookup t.headers ("parameter".toList)).getD []

def mincolOf (t : RawTable) : List Char := (lowerLookup t.headers ("min".toList)).getD []

def maxcolOf (t : RawTable) : List Char := (lowerLookup t.headers ("max".toList)).getD []

/-- Row processing of the strict loaders: `df.dropna(subset=[pcol, mincol,
maxcol])`, then `pd.to_numeric(..., errors="coerce")` on min/max followed by
`dropna` again, then `(str(row[pcol]).strip(), float(min), float(max))`. -/
def strictTriples (t : RawTable) : List (List Char × (Rat × Rat)) :=
  (t.rows.filter (fun r =>
      !isNaCell (getCell r (pcolOf t)) && !isNaCell (getCell r (mincolOf t))
        && !isNaCell (getCell r (maxcolOf t)))).filterMap
    (fun r =>
      match toNumeric (getCell r (mincolOf t)), toNumeric (getCell r (maxcolOf t)) with
      | some lo, some hi => some (stripChars (strForm (getCell r (pcolOf t))), (lo, hi))
      | _, _ => none)

/-- The `ranges[param] = (min, max)` loop: a Python dict built in row order,
last occurrence of a parameter winning. -/
def buildDict (l : List (List Char × (Rat × Rat))) : List (List Char × (Rat × Rat)) :=
  l.foldl (fun d x => dictInsert d x.1 x.2) []

/-- `toolbox.load_ranges`: fail on a missing or unreadable file or missing
required columns (case-insensitively matched); otherwise drop incomplete or
non-numeric rows and build the mapping. -/
def load_ranges (src : Source) : Except RangeSourceError (List (List Char × (Rat × Rat))) :=
  match src with
  | .missing => .error .fileNotFound
  | .unreadable => .error .readError
  | .tab t =>
    if requiredLowerPresent t then .ok (buildDict (strictTriples t))
    else .error .missingColumns

/-- `toolbox.load_maintenance`: a verbatim copy of `load_ranges`. -/
def load_maintenance (src : Source) : Except RangeSourceError (List (List Char × (Rat × Rat))) :=
  match src with
  | .missing => .error .fileNotFound
  | .unreadable => .error .readError
  | .tab t =>
    if requiredLowerPresent t then .ok (buildDict (strictTriples t))
    else .error .missingColumns

/-! ## Sheet-name deduplication (main._unique_sheet_name) -/

/-- `(base or "Sheet").strip() or "Sheet"`. -/
def normalizeBase (base : List Char) : List Char :=
  let b := if base = [] then "Sheet".toList else base
  let s := stripChars b
  if s = [] then "Sheet".toList else s

/-- The collision candidate for a given suffix:
`proposed[: max(0, 31 - len(f"_{suffix}"))] + f"_{suffix}"`
(note `Nat` subtraction is already truncated at 0). -/
def candName (proposed : List Char) (n : Nat) : List Char :=
  let suffixChars := '_' :: natToChars n
  proposed.take (31 - suffixChars.length) ++ suffixChars

/-- The `while name in existing` loop, fuelled; the fuel chosen below always
suffices, so the bare fallback on empty fuel is unreachable. -/
def pickLoop (existing : List (List Char)) (proposed : List Char) :
    Nat → Nat → List Char
  | 0, n => candName proposed n
  | fuel + 1, n =>
    if candName proposed n ∈ existing then pickLoop existing proposed fuel (n + 1)
    else candName proposed n

/-- `main._unique_sheet_name(base, existing)`. -/
def _unique_sheet_name (base : List Char) (existing : List (List Char)) : List Char :=
  let proposed := (normalizeBase base).take 31
  if proposed ∈ existing then pickLoop existing proposed (existing.length + 1) 2
  else proposed

/-- The naming loop of `upload_and_highlight`: each assigned name is added to
`existing_names` before the next file is named. -/
def assignSheetNames (existing : List (List Char)) : List (List Char) → List (List Char)
  | [] => []
  | b :: bs =>
    let nm := _unique_sheet_name b existing
    nm :: assignSheetNames (nm :: existing) bs

/-! ## Annotator substitution (main._highlight_df_bytes) -/

/-- `df.fillna("N/A")`: every NaN cell becomes the literal text `N/A`. -/
def fillnaNA : Cell → Cell
  | .na => .str ("N/A".toList)
  | c => c

/-- A sheet as a list of named columns. -/
abbrev Sheet : Type := List (List Char × List Cell)

def fillnaSheet (t : Sheet) : Sheet :=
  t.map (fun col => (col.1, col.2.map fillnaNA))

/-- The classification grid of a whole sheet under a permissive range table
(`WQ_Buoy.RANGES`), column by column. -/
def classifySheet (ranges : List (List Char × PermRange)) (t : Sheet) :
    List (List Char × List Classification) :=
  t.map (fun col => (col.1, col.2.map (classifyCell (dictGet ranges col.1) defaultNaTokens)))

/-! ## Upload handler (main.upload_and_highlight) -/

/-- The observable part of the JSON response. -/
structure UploadResponse where
  status : Nat
  ok : Bool
deriving DecidableEq

/-- `main.upload_and_highlight` restricted to its state-relevant skeleton:
`incoming = [f for f in (file_1, file_2, file_3) if f is not None]`; an empty
list returns the 400 response before anything touches
`LATEST_DOWNLOAD_BYTES`; the body (parse, classify, render — abstracted as
`pipeline`) stores its result only on success, and any exception is caught
into a 400 response leaving the slot untouched. -/
def upload_and_highlight {α β : Type} (pipeline : List α → Except (List Char) β)
    (latest : Option β) (file1 file2 file3 : Option α) :
    UploadResponse × Option β :=
  let incoming := [file1, file2, file3].filterMap id
  if incoming.isEmpty then (⟨400, false⟩, latest)
  else
    match pipeline incoming with
    | .ok bytes => (⟨200, true⟩, some bytes)
    | .error _ => (⟨400, false⟩, latest)

/-! ## Concrete range sources used as witnesses -/

/-- A well-formed range source with all-lowercase headers and one known
parameter row `pH, 1, 2`. -/
def tLow : RawTable :=
  ⟨["parameter", "min", "max"].map (fun s => s.toList),
   [[("parameter".toList, .str ("pH".toList)), ("min".toList, .num 1),
     ("max".toList, .num 2)]]⟩

/-- The same source with capitalised headers `Parameter, Min, Max`. -/
def tCaps : RawTable :=
  ⟨["Parameter", "Min", "Max"].map (fun s => s.toList),
   [[("Parameter".toList, .str ("pH".toList)), ("Min".toList, .num 1),
     ("Max".toList, .num 2)]]⟩

/-- A capitalised source with one good row, one row with an unparsable min,
and one row with a missing parameter (the latter two must be dropped by the
strict loader). -/
def tDrops : RawTable :=
  ⟨["Parameter", "Min", "Max"].map (fun s => s.toList),
   [[("Parameter".toList, .str ("pH".toList)), ("Min".toList, .num 1),
     ("Max".toList, .num 2)],
    [("Parameter".toList, .str ("Turbidity (NTU)".toList)),
     ("Min".toList, .str ("abc".toList)), ("Max".toList, .num 2)],
    [("Parameter".toList, .na), ("Min".toList, .num 1), ("Max".toList, .num 2)]]⟩

/-- The row mapping the permissive loader builds from `tLow` before default
injection. -/
def dPH : List (List Char × PermRange) :=
  [("pH".toList, (some 1, some 2))]

/-! ## Helper lemmas: digits, strip, parse -/

theorem digitChar_props : ∀ d : Nat, d < 10 →
    (Nat.digitChar d).isDigit = true ∧ (Nat.digitChar d).isWhitespace = false ∧
      Nat.digitChar d ≠ '_' ∧ (Nat.digitChar d).toNat - 48 = d := by
  decide

theorem natToCharsAux_mem : ∀ (fuel n : Nat), ∀ ch ∈ natToCharsAux fuel n,
    ch.isDigit = true ∧ ch.isWhitespace = false ∧ ch ≠ '_' := by
  intro fuel
  induction fuel with
  | zero => intro n ch h; simp [natToCharsAux] at h
  | succ f ih =>
    intro n ch h
    by_cases hn : n = 0
    · simp [natToCharsAux, hn] at h
    · simp only [natToCharsAux, if_neg hn, List.mem_append, List.mem_singleton] at h
      rcases h with h | h
      · exact ih _ ch h
      · subst h
        have := digitChar_props (n % 10) (Nat.mod_lt _ (by norm_num))
        exact ⟨this.1, this.2.1, this.2.2.1⟩

theorem natToChars_mem (n : Nat) : ∀ ch ∈ natToChars n,
    ch.isDigit = true ∧ ch.isWhitespace = false ∧ ch ≠ '_' := by
  intro ch h
  by_cases hn : n = 0
  · simp [natToChars, hn] at h
    subst h
    exact ⟨by decide, by decide, by decide⟩
  · simp only [natToChars, if_neg hn] at h
    exact natToCharsAux_mem n n ch h

theorem natToChars_ne_nil (n : Nat) : natToChars n ≠ [] := by
  by_cases hn : n = 0
  · simp [natToChars, hn]
  · simp only [natToChars, if_neg hn]
    obtain ⟨f, hf⟩ : ∃ f, n = f + 1 := ⟨n - 1, by omega⟩
    rw [hf]
    simp [natToCharsAux, hf ▸ hn]

theorem natToChars_exists_digit (n : Nat) :
    ∃ ch ∈ natToChars n, ch.isDigit = true ∧ ch.isWhitespace = false := by
  obtain ⟨ch, hch⟩ := List.exists_mem_of_ne_nil _ (natToChars_ne_nil n)
  exact ⟨ch, hch, (natToChars_mem n ch hch).1, (natToChars_mem n ch hch).2.1⟩

theorem ratToChars_exists_digit (q : Rat) :
    ∃ ch ∈ ratToChars q, ch.isDigit = true ∧ ch.isWhitespace = false := by
  obtain ⟨ch, hm, hd, hw⟩ := natToChars_exists_digit q.num.natAbs
  refine ⟨ch, ?_, hd, hw⟩
  unfold ratToChars intToChars
  by_cases hneg : q.num < 0
  · simp only [if_pos hneg]
    exact List.mem_append_left _ (List.mem_cons_of_mem _ hm)
  · simp only [if_neg hneg]
    exact List.mem_append_left _ hm

theorem mem_dropWhile_of_not {p : Char → Bool} {c : Char} (hc : p c = false) :
    ∀ {l : List Char}, c ∈ l → c ∈ l.dropWhile p := by
  intro l
  induction l with
  | nil => intro h; exact absurd h (List.not_mem_nil c)
  | cons x xs ih =>
    intro h
    by_cases hx : p x = true
    · rw [List.dropWhile_cons_of_pos hx]
      rcases List.mem_cons.mp h with h | h
      · subst h; rw [hc] at hx; exact absurd hx (by simp)
      · exact ih h
    · rw [List.dropWhile_cons_of_neg hx]
      exact h

theorem mem_stripChars {c : Char} {l : List Char} (hmem : c ∈ l)
    (hw : c.isWhitespace = false) : c ∈ stripChars l := by
  unfold stripChars
  rw [List.mem_reverse]
  exact mem_dropWhile_of_not hw (by rw [List.mem_reverse]; exact mem_dropWhile_of_not hw hmem)

theorem defaultNaTokens_no_digit :
    ∀ t ∈ defaultNaTokens, ∀ ch ∈ t, ch.isDigit = false := by
  decide

theorem defaultNaTokens_no_parse :
    ∀ t ∈ defaultNaTokens, parseNum t = none := by
  decide

/-- A cell that coerces to a number is never NA-like (with the default
tokens): tokens contain no digits, numbers always print one, and NA tokens
never parse. -/
theorem isMissing_eq_false_of_toNumeric {c : Cell} {v : Rat}
    (h : toNumeric c = some v) : isMissing defaultNaTokens c = false := by
  cases c with
  | na => simp [toNumeric] at h
  | num q =>
    obtain ⟨ch, hm, hd, hw⟩ := ratToChars_exists_digit q
    simp only [isMissing, isNaCell, strForm, Bool.false_or, decide_eq_false_iff_not]
    intro htok
    have := defaultNaTokens_no_digit _ htok ch (mem_stripChars hm hw)
    rw [hd] at this
    exact absurd this (by simp)
  | str s =>
    simp only [toNumeric] at h
    simp only [isMissing, isNaCell, strForm, Bool.false_or, decide_eq_false_iff_not]
    intro htok
    rw [defaultNaTokens_no_parse _ htok] at h
    exact absurd h (by simp)

/-! ## Unfolding lemmas for the classifier -/

theorem classifyCell_some (lo hi : Option Rat) (tokens : List (List Char)) (c : Cell) :
    classifyCell (some (lo, hi)) tokens c =
      if oorFlag lo hi c then .OutOfRange
      else if isMissing tokens c then .Missing else .Normal := rfl

theorem classifyCell_none (tokens : List (List Char)) (c : Cell) :
    classifyCell none tokens c =
      if isMissing tokens c then .Missing else .Normal := rfl

/-! ## Claim C1 -/

/-- C1: for a tracked column with numeric range `(lo, hi)`, both classifiers
flag a cell out of range iff it coerces to a numeric value strictly outside
the inclusive range; boundary values classify Normal, and non-missing values
that fail coercion are never flagged. -/
theorem c1_out_of_range_iff (lo hi : Rat) (c : Cell) :
    (classifyCell (some (some lo, some hi)) defaultNaTokens c = .OutOfRange ↔
      ∃ v, toNumeric c = some v ∧ (v < lo ∨ v > hi)) ∧
    (oorMaskT lo hi c = true ↔ ∃ v, toNumeric c = some v ∧ (v < lo ∨ v > hi)) ∧
    (lo ≤ hi → (toNumeric c = some lo ∨ toNumeric c = some hi) →
      classifyCell (some (some lo, some hi)) defaultNaTokens c = .Normal) ∧
    (toNumeric c = none →
      classifyCell (some (some lo, some hi)) defaultNaTokens c ≠ .OutOfRange) := by
  have hmask : oorMaskT lo hi c = true ↔ ∃ v, toNumeric c = some v ∧ (v < lo ∨ v > hi) := by
    cases h : toNumeric c with
    | none => simp [oorMaskT, ltFloat, h]
    | some v => simp [oorMaskT, ltFloat, h, gt_iff_lt]
  have hoor : oorFlag (some lo) (some hi) c = oorMaskT lo hi c := rfl
  refine ⟨?_, hmask, ?_, ?_⟩
  · rw [classifyCell_some]
    by_cases hb : oorFlag (some lo) (some hi) c = true
    · rw [if_pos hb]
      exact ⟨fun _ => hmask.mp (hoor ▸ hb), fun _ => rfl⟩
    · rw [if_neg hb]
      constructor
      · intro hcl
        by_cases hm : isMissing defaultNaTokens c = true
        · rw [if_pos hm] at hcl
          exact absurd hcl (by decide)
        · rw [if_neg hm] at hcl
          exact absurd hcl (by decide)
      · intro hv
        exact absurd (hoor.symm ▸ hmask.mpr hv) hb
  · intro hle hbnd
    obtain ⟨v, hv, hvin⟩ : ∃ v, toNumeric c = some v ∧ ¬(v < lo ∨ v > hi) := by
      rcases hbnd with h | h
      · exact ⟨lo, h, by simp [lt_irrefl, not_lt.mpr hle]⟩
      · exact ⟨hi, h, by simp [lt_irrefl, not_lt.mpr hle]⟩
    have hb : oorMaskT lo hi c = false := by
      by_contra hbo
      rw [Bool.not_eq_false] at hbo
      obtain ⟨w, hw, hwin⟩ := hmask.mp hbo
      rw [hv] at hw
      cases hw
      exact hvin hwin
    have hof : oorFlag (some lo) (some hi) c = false := hoor.trans hb
    have hm := isMissing_eq_false_of_toNumeric hv
    rw [classifyCell_some, hof, hm]
    simp
  · intro hn hcl
    rw [classifyCell_some] at hcl
    by_cases hb : oorFlag (some lo) (some hi) c = true
    · obtain ⟨v, hv, _⟩ := hmask.mp (hoor ▸ hb)
      rw [hn] at hv
      exact absurd hv (by simp)
    · rw [if_neg hb] at hcl
      by_cases hm : isMissing defaultNaTokens c = true
      · rw [if_pos hm] at hcl
        exact absurd hcl (by decide)
      · rw [if_neg hm] at hcl
        exact absurd hcl (by decide)

/-- C1 witness: with range `(1, 3)` the boundary cell `1` is Normal, the
numeric cell `4` is flagged by both classifiers, and the unparsable text
`abc` is not flagged. -/
theorem c1_out_of_range_iff_witness :
    classifyCell (some (some 1, some 3)) defaultNaTokens (.num 1) = .Normal ∧
    classifyCell (some (some 1, some 3)) defaultNaTokens (.num 4) = .OutOfRange ∧
    oorMaskT 1 3 (.num 4) = true ∧
    classifyCell (some (some 1, some 3)) defaultNaTokens (.str ("abc".toList)) ≠
      .OutOfRange :=
  ⟨(c1_out_of_range_iff 1 3 (.num 1)).2.2.1 (by norm_num) (Or.inl rfl),
   (c1_out_of_range_iff 1 3 (.num 4)).1.mpr ⟨4, rfl, Or.inr (by norm_num)⟩,
   (c1_out_of_range_iff 1 3 (.num 4)).2.1.mpr ⟨4, rfl, Or.inr (by norm_num)⟩,
   (c1_out_of_range_iff 1 3 (.str ("abc".toList))).2.2.2 (by decide)⟩

/-! ## Claims C2, C8, C9 -/

theorem isNaCell_eq_true_iff (c : Cell) : isNaCell c = true ↔ c = .na := by
  cases c <;> simp [isNaCell]

/-- The printed form of a number is never an NA token (tokens have no
digits). -/
theorem num_strip_not_token (q : Rat) : stripChars (ratToChars q) ∉ defaultNaTokens := by
  intro htok
  obtain ⟨ch, hm, hd, hw⟩ := ratToChars_exists_digit q
  have := defaultNaTokens_no_digit _ htok ch (mem_stripChars hm hw)
  rw [hd] at this
  exact absurd this (by simp)

theorem ltFloat_left_none (b : Option Rat) : ltFloat none b = false := by
  cases b <;> rfl

theorem ltFloat_right_none (a : Option Rat) : ltFloat a none = false := by
  cases a <;> rfl

theorem oorFlag_of_toNumeric_none {c : Cell} (h : toNumeric c = none)
    (lo hi : Option Rat) : oorFlag lo hi c = false := by
  unfold oorFlag
  rw [h, ltFloat_left_none, ltFloat_right_none]
  rfl

/-- An NA-like cell never coerces to a number (with the default tokens). -/
theorem toNumeric_none_of_missing_cond {c : Cell}
    (h : c = .na ∨ stripChars (strForm c) ∈ defaultNaTokens) : toNumeric c = none := by
  rcases h with h | h
  · subst h; rfl
  · cases c with
    | na => rfl
    | num q => exact absurd h (num_strip_not_token q)
    | str s =>
      simp only [strForm] at h
      simpa [toNumeric] using defaultNaTokens_no_parse _ h

/-- C2 counterexample: the cell text `Na` is not one of the NA tokens, so the
classifier leaves it Normal — yet its trimmed, case-normalized form `na` is a
configured NA token, so the claim as stated would make it Missing. -/
theorem c2_counterexample :
    isMissing defaultNaTokens (.str ("Na".toList)) = false ∧
    classifyCell none defaultNaTokens (.str ("Na".toList)) = .Normal ∧
    lowerChars (stripChars (strForm (.str ("Na".toList)))) ∈ defaultNaTokens := by
  decide

/-- C2 (amended): a cell is NA-masked, and (for any column) classified
Missing, exactly when it is the NaN sentinel or its trimmed string form is
literally — case-sensitively — one of the default NA tokens. -/
theorem c2_missing_iff (rng : Option (Option Rat × Option Rat)) (c : Cell) :
    (isMissing defaultNaTokens c = true ↔
      (c = .na ∨ stripChars (strForm c) ∈ defaultNaTokens)) ∧
    (classifyCell rng defaultNaTokens c = .Missing ↔
      (c = .na ∨ stripChars (strForm c) ∈ defaultNaTokens)) := by
  have hfirst : isMissing defaultNaTokens c = true ↔
      (c = .na ∨ stripChars (strForm c) ∈ defaultNaTokens) := by
    simp [isMissing, isNaCell_eq_true_iff]
  refine ⟨hfirst, ?_, ?_⟩
  · intro hcl
    rw [← hfirst]
    cases rng with
    | none =>
      rw [classifyCell_none] at hcl
      by_cases hm : isMissing defaultNaTokens c = true
      · exact hm
      · rw [if_neg hm] at hcl
        exact absurd hcl (by decide)
    | some lohi =>
      obtain ⟨lo, hi⟩ := lohi
      rw [classifyCell_some] at hcl
      by_cases hb : oorFlag lo hi c = true
      · rw [if_pos hb] at hcl
        exact absurd hcl (by decide)
      · rw [if_neg hb] at hcl
        by_cases hm : isMissing defaultNaTokens c = true
        · exact hm
        · rw [if_neg hm] at hcl
          exact absurd hcl (by decide)
  · intro hcond
    have hna : isMissing defaultNaTokens c = true := hfirst.mpr hcond
    have hnum := toNumeric_none_of_missing_cond hcond
    cases rng with
    | none => rw [classifyCell_none, hna]; rfl
    | some lohi =>
      obtain ⟨lo, hi⟩ := lohi
      rw [classifyCell_some, oorFlag_of_toNumeric_none hnum, hna]
      rfl

/-- The `fillna("N/A")` substitution does not change any cell's
classification. -/
theorem classify_fillna (rng : Option (Option Rat × Option Rat)) (c : Cell) :
    classifyCell rng defaultNaTokens (fillnaNA c) = classifyCell rng defaultNaTokens c := by
  cases c with
  | num q => rfl
  | str s => rfl
  | na =>
    cases rng with
    | none => decide
    | some lohi =>
      obtain ⟨lo, hi⟩ := lohi
      rw [classifyCell_some, classifyCell_some]
      have h1 : oorFlag lo hi (fillnaNA .na) = false :=
        oorFlag_of_toNumeric_none (by decide) lo hi
      have h2 : oorFlag lo hi .na = false :=
        oorFlag_of_toNumeric_none (show toNumeric Cell.na = none from rfl) lo hi
      rw [h1, h2]
      have m1 : isMissing defaultNaTokens (fillnaNA .na) = true := by decide
      have m2 : isMissing defaultNaTokens .na = true := by decide
      rw [m1, m2]

/-- C8: substituting the literal text `N/A` for every NaN cell before styling
is presentation-only — the classification grid of the substituted sheet
equals that of the original sheet, each substituted cell still classifies
Missing (never OutOfRange), and non-NaN cells are untouched. -/
theorem c8_fillna_presentation_only (ranges : List (List Char × PermRange)) (t : Sheet) :
    classifySheet ranges (fillnaSheet t) = classifySheet ranges t ∧
    (∀ rng : Option (Option Rat × Option Rat),
      classifyCell rng defaultNaTokens (fillnaNA .na) = .Missing ∧
      classifyCell rng defaultNaTokens (fillnaNA .na) ≠ .OutOfRange) ∧
    (∀ c : Cell, c ≠ .na → fillnaNA c = c) := by
  refine ⟨?_, ?_, ?_⟩
  · unfold classifySheet fillnaSheet
    rw [List.map_map]
    apply List.map_congr_left
    intro col _
    simp only [Function.comp]
    rw [List.map_map]
    apply congrArg
    apply List.map_congr_left
    intro c _
    exact classify_fillna _ c
  · intro rng
    have hmiss : classifyCell rng defaultNaTokens (fillnaNA .na) = .Missing := by
      rw [classify_fillna]
      cases rng with
      | none => decide
      | some lohi =>
        obtain ⟨lo, hi⟩ := lohi
        have hflag : oorFlag lo hi Cell.na = false :=
          oorFlag_of_toNumeric_none (show toNumeric Cell.na = none from rfl) lo hi
        rw [classifyCell_some, hflag]
        decide
    exact ⟨hmiss, by rw [hmiss]; decide⟩
  · intro c hc
    cases c with
    | na => exact absurd rfl hc
    | num q => rfl
    | str s => rfl

/-- C9: when a loaded range is inverted (`min > max`), every cell that
coerces to a number is flagged out of range by both classifiers. -/
theorem c9_inverted_range (lo hi : Rat) (h : hi < lo) (c : Cell) (v : Rat)
    (hv : toNumeric c = some v) :
    classifyCell (some (some lo, some hi)) defaultNaTokens c = .OutOfRange ∧
    oorMaskT lo hi c = true := by
  have hor : v < lo ∨ hi < v := by
    rcases lt_or_le v lo with h1 | h1
    · exact Or.inl h1
    · exact Or.inr (lt_of_lt_of_le h h1)
  have hmask : oorMaskT lo hi c = true := by
    simp only [oorMaskT, ltFloat, hv, Bool.or_eq_true, decide_eq_true_eq]
    exact hor
  have hflag : oorFlag (some lo) (some hi) c = true := hmask
  refine ⟨?_, hmask⟩
  rw [classifyCell_some, hflag]
  rfl

/-- C9 witness: with the inverted range `(2, 1)` the in-between value `3/2`
is flagged by both classifiers. -/
theorem c9_inverted_range_witness :
    classifyCell (some (some 2, some 1)) defaultNaTokens (.num (mkRat 3 2)) = .OutOfRange ∧
    oorMaskT 2 1 (.num (mkRat 3 2)) = true :=
  c9_inverted_range 2 1 (by norm_num) (.num (mkRat 3 2)) (mkRat 3 2)
    (show toNumeric (Cell.num (mkRat 3 2)) = some (mkRat 3 2) from rfl)

/-! ## Dict lemmas -/

theorem find?_map_update {β : Type} (d : List (List Char × β)) (k k' : List Char) (v : β)
    (h : k' ≠ k) :
    (d.map (fun p => if p.1 = k then (k, v) else p)).find? (fun p => decide (p.1 = k')) =
      d.find? (fun p => decide (p.1 = k')) := by
  induction d with
  | nil => rfl
  | cons p ps ih =>
    by_cases hp : p.1 = k
    · simp only [List.map_cons, if_pos hp]
      rw [List.find?_cons_of_neg _
          (by simp only [decide_eq_true_eq]; exact fun hh => h hh.symm),
        List.find?_cons_of_neg _
          (by simp only [decide_eq_true_eq, hp]; exact fun hh => h hh.symm)]
      exact ih
    · simp only [List.map_cons, if_neg hp]
      by_cases hp' : p.1 = k'
      · rw [List.find?_cons_of_pos _ (by simp only [decide_eq_true_eq]; exact hp'),
          List.find?_cons_of_pos _ (by simp only [decide_eq_true_eq]; exact hp')]
      · rw [List.find?_cons_of_neg _ (by simp only [decide_eq_true_eq]; exact hp'),
          List.find?_cons_of_neg _ (by simp only [decide_eq_true_eq]; exact hp')]
        exact ih

theorem dictGet_insert_self {β : Type} (d : List (List Char × β)) (k : List Char) (v : β) :
    dictGet (dictInsert d k v) k = some v := by
  unfold dictInsert
  by_cases hany : d.any (fun p => decide (p.1 = k)) = true
  · rw [if_pos hany]
    induction d with
    | nil => simp at hany
    | cons p ps ih =>
      by_cases hp : p.1 = k
      · simp only [List.map_cons, if_pos hp]
        rw [dictGet, List.find?_cons_of_pos _ (by simp)]
        rfl
      · have hps : ps.any (fun p => decide (p.1 = k)) = true := by
          simp only [List.any_cons, Bool.or_eq_true, decide_eq_true_eq] at hany
          exact of_eq_true (eq_true (hany.resolve_left hp))
        simp only [List.map_cons, if_neg hp]
        rw [dictGet, List.find?_cons_of_neg _ (by simp only [decide_eq_true_eq]; exact hp)]
        exact ih hps
  · rw [if_neg hany]
    rw [Bool.not_eq_true, List.any_eq_false] at hany
    unfold dictGet
    rw [List.find?_append]
    have hnone : d.find? (fun p => decide (p.1 = k)) = none :=
      List.find?_eq_none.mpr (fun p hp => by simpa using hany p hp)
    rw [hnone]
    rw [List.find?_cons_of_pos _ (by simp)]
    rfl

theorem dictGet_insert_ne {β : Type} (d : List (List Char × β)) (k k' : List Char) (v : β)
    (h : k' ≠ k) : dictGet (dictInsert d k v) k' = dictGet d k' := by
  unfold dictInsert
  by_cases hany : d.any (fun p => decide (p.1 = k)) = true
  · rw [if_pos hany]
    unfold dictGet
    rw [find?_map_update d k k' v h]
  · rw [if_neg hany]
    unfold dictGet
    rw [List.find?_append]
    have hone : List.find? (fun p => decide (p.1 = k')) [(k, v)] = none := by
      rw [List.find?_cons_of_neg _
        (by simp only [decide_eq_true_eq]; exact fun hh => h hh.symm)]
      rfl
    rw [hone]
    cases d.find? (fun p => decide (p.1 = k')) <;> rfl

/-! ## Foldl-insert lemmas for the loaders -/

theorem dictGet_foldl_insert {β : Type} (ks : List (List Char)) (f : List Char → β)
    (d : List (List Char × β)) (k : List Char) :
    dictGet (ks.foldl (fun r p => dictInsert r p (f p)) d) k =
      if k ∈ ks then some (f k) else dictGet d k := by
  induction ks generalizing d with
  | nil => simp
  | cons p ps ih =>
    rw [List.foldl_cons, ih]
    by_cases hk : k ∈ ps
    · rw [if_pos hk, if_pos (List.mem_cons_of_mem _ hk)]
    · rw [if_neg hk]
      by_cases hkp : k = p
      · subst hkp
        rw [dictGet_insert_self, if_pos (List.mem_cons_self _ _)]
      · rw [dictGet_insert_ne _ _ _ _ hkp,
          if_neg (by simp [List.mem_cons, hkp, hk])]

theorem dictGet_foldl_pairs_mem {β : Type} (l : List (List Char × β))
    (d : List (List Char × β)) (k : List Char) (v : β)
    (h : dictGet (l.foldl (fun r x => dictInsert r x.1 x.2) d) k = some v) :
    (k, v) ∈ l ∨ dictGet d k = some v := by
  induction l generalizing d with
  | nil => exact Or.inr h
  | cons x xs ih =>
    rw [List.foldl_cons] at h
    rcases ih _ h with hmem | hd
    · exact Or.inl (List.mem_cons_of_mem _ hmem)
    · by_cases hk : k = x.1
      · subst hk
        rw [dictGet_insert_self] at hd
        cases hd
        exact Or.inl (List.mem_cons_self _ _)
      · rw [dictGet_insert_ne _ _ _ _ hk] at hd
        exact Or.inr hd

theorem fallbackRanges_covers : ∀ p ∈ PARAM_COLS, (dictGet fallbackRanges p).isSome = true := by
  decide

/-! ## Claim C3 -/

theorem load_ranges_csv_simple_tab (t : RawTable) :
    load_ranges_csv_simple (.tab t) =
      if requiredExact t then
        match permRows t.rows [] with
        | .ok ranges =>
          (PARAM_COLS.filter (fun p => (dictGet ranges p).isNone)).foldl
            (fun r p => dictInsert r p ((dictGet fallbackRanges p).getD (none, none))) ranges
        | .error _ => fallbackRanges
      else fallbackRanges := rfl

/-- C3: the permissive loader is total (modelled as a function, it can never
raise); a missing, unreadable or column-deficient source — and a row whose
min/max text `float(...)` cannot parse — yields exactly the hardcoded
fallback table; and on full success every known parameter the source omitted
gets its fallback default while source-provided known parameters are kept. -/
theorem c3_permissive_loader (t : RawTable) (d : List (List Char × PermRange)) :
    load_ranges_csv_simple .missing = fallbackRanges ∧
    load_ranges_csv_simple .unreadable = fallbackRanges ∧
    (requiredExact t = false → load_ranges_csv_simple (.tab t) = fallbackRanges) ∧
    (permRows t.rows [] = .error () → load_ranges_csv_simple (.tab t) = fallbackRanges) ∧
    (requiredExact t = true → permRows t.rows [] = .ok d →
      (∀ p ∈ PARAM_COLS, dictGet d p = none →
        dictGet (load_ranges_csv_simple (.tab t)) p = dictGet fallbackRanges p) ∧
      (∀ p v, dictGet d p = some v →
        dictGet (load_ranges_csv_simple (.tab t)) p = some v)) := by
  refine ⟨rfl, rfl, ?_, ?_, ?_⟩
  · intro hreq
    rw [load_ranges_csv_simple_tab, hreq]
    rfl
  · intro herr
    rw [load_ranges_csv_simple_tab]
    cases hreq : requiredExact t with
    | false => rfl
    | true =>
      rw [herr]
      rfl
  · intro hreq hok
    have hload : load_ranges_csv_simple (.tab t) =
        (PARAM_COLS.filter (fun p => (dictGet d p).isNone)).foldl
          (fun r p => dictInsert r p ((dictGet fallbackRanges p).getD (none, none))) d := by
      rw [load_ranges_csv_simple_tab, hreq, hok]
      rfl
    constructor
    · intro p hp hnone
      rw [hload, dictGet_foldl_insert,
        if_pos (List.mem_filter.mpr ⟨hp, by rw [hnone]; rfl⟩)]
      have hsome := fallbackRanges_covers p hp
      cases hfb : dictGet fallbackRanges p with
      | none => simp [hfb] at hsome
      | some r => rfl
    · intro p v hv
      rw [hload, dictGet_foldl_insert,
        if_neg (fun hmem => by
          have := (List.mem_filter.mp hmem).2
          rw [hv] at this
          exact absurd this (by simp))]
      exact hv

/-- C3 witness: on the lowercase source `tLow` the permissive loader keeps
the provided `pH ↦ (1, 2)` and fills the omitted Turbidity parameter with
its fallback default. -/
theorem c3_permissive_loader_witness :
    requiredExact tLow = true ∧ permRows tLow.rows [] = .ok dPH ∧
    dictGet (load_ranges_csv_simple (.tab tLow)) ("Turbidity (NTU)".toList) =
      dictGet fallbackRanges ("Turbidity (NTU)".toList) ∧
    dictGet (load_ranges_csv_simple (.tab tLow)) ("pH".toList) = some (some 1, some 2) :=
  ⟨by decide, by decide,
   ((c3_permissive_loader tLow dPH).2.2.2.2 (by decide) (by decide)).1
     ("Turbidity (NTU)".toList) (by decide) (by decide),
   ((c3_permissive_loader tLow dPH).2.2.2.2 (by decide) (by decide)).2
     ("pH".toList) (some 1, some 2) (by decide)⟩

/-! ## Claim C4 -/

theorem load_ranges_tab (t : RawTable) :
    load_ranges (.tab t) =
      if requiredLowerPresent t then .ok (buildDict (strictTriples t))
      else .error .missingColumns := rfl

/-- C4: the strict loader fails on a missing file, an unreadable file, and on
required columns absent after case normalization; with the headers present it
always succeeds (incomplete or non-numeric rows are dropped, never fatal),
and every mapping entry comes from an actual source row — no fallback
defaults are ever substituted. -/
theorem c4_strict_loader (t : RawTable) :
    load_ranges .missing = .error .fileNotFound ∧
    load_ranges .unreadable = .error .readError ∧
    (requiredLowerPresent t = false → load_ranges (.tab t) = .error .missingColumns) ∧
    (requiredLowerPresent t = true → load_ranges (.tab t) = .ok (buildDict (strictTriples t))) ∧
    (∀ p lohi, dictGet (buildDict (strictTriples t)) p = some lohi →
      ∃ r ∈ t.rows, p = stripChars (strForm (getCell r (pcolOf t))) ∧
        toNumeric (getCell r (mincolOf t)) = some lohi.1 ∧
        toNumeric (getCell r (maxcolOf t)) = some lohi.2) := by
  refine ⟨rfl, rfl, ?_, ?_, ?_⟩
  · intro h
    rw [load_ranges_tab, h]
    rfl
  · intro h
    rw [load_ranges_tab, h]
    rfl
  · intro p lohi hget
    rcases dictGet_foldl_pairs_mem (strictTriples t) [] p lohi hget with hmem | hnil
    · obtain ⟨r, hrf, hg⟩ := List.mem_filterMap.mp hmem
      refine ⟨r, List.mem_of_mem_filter hrf, ?_⟩
      cases hmin : toNumeric (getCell r (mincolOf t)) with
      | none => rw [hmin] at hg; exact absurd hg (by simp)
      | some lo =>
        cases hmax : toNumeric (getCell r (maxcolOf t)) with
        | none => rw [hmin, hmax] at hg; exact absurd hg (by simp)
        | some hi =>
          rw [hmin, hmax] at hg
          simp only [Option.some_inj] at hg
          obtain ⟨hp, hlohi⟩ := Prod.mk.injEq .. ▸ hg
          refine ⟨hp.symm, ?_, ?_⟩
          · rw [← hlohi]
          · rw [← hlohi]

    · exact absurd hnil (by simp [dictGet])

/-- C4 witness: on a capitalised source with one good row, one unparsable-min
row and one NaN-parameter row, the strict loader succeeds with exactly the
good row. -/
theorem c4_strict_loader_witness :
    requiredLowerPresent tDrops = true ∧
    load_ranges (.tab tDrops) = .ok [("pH".toList, ((1 : Rat), (2 : Rat)))] := by
  refine ⟨by decide, ?_⟩
  rw [(c4_strict_loader tDrops).2.2.2.1 (by decide)]
  decide

/-! ## Claim C10 -/

/-- C10: `load_ranges` and `load_maintenance` are extensionally equal — on
every source either both fail identically or both return the identical
mapping. -/
theorem c10_loaders_extensionally_equal (src : Source) :
    load_ranges src = load_maintenance src := by
  cases src <;> rfl

/-! ## Claim C5 -/

/-- C5 counterexample: on a source whose headers are `Parameter, Min, Max`,
the permissive loader does NOT match case-insensitively — its
`required.issubset(df.columns)` check fails, so it silently returns the
fallback table instead of the mapping it produces for the all-lowercase
headers. -/
theorem c5_counterexample :
    load_ranges_csv_simple (.tab tCaps) = fallbackRanges ∧
    dictGet (load_ranges_csv_simple (.tab tLow)) ("pH".toList) = some (some 1, some 2) ∧
    load_ranges_csv_simple (.tab tCaps) ≠ load_ranges_csv_simple (.tab tLow) := by
  decide

/-- C5 (amended): only the strict loader matches the required headers
case-insensitively (it accepts any casing, and on the capitalised source
produces the same mapping as on the lowercase one); the permissive loader
requires the exact lowercase headers and otherwise falls back to the default
table. -/
theorem c5_header_case_sensitivity (t : RawTable) :
    (requiredLowerPresent t = true → ∃ d, load_ranges (.tab t) = .ok d) ∧
    (requiredExact t = false → load_ranges_csv_simple (.tab t) = fallbackRanges) ∧
    load_ranges (.tab tCaps) = load_ranges (.tab tLow) := by
  refine ⟨?_, ?_, by decide⟩
  · intro h
    exact ⟨buildDict (strictTriples t), by rw [load_ranges_tab, h]; rfl⟩
  · intro h
    rw [load_ranges_csv_simple_tab, h]
    rfl

/-- C5 witness: the strict loader accepts the capitalised source while the
permissive loader rejects the very same source into its fallback table. -/
theorem c5_header_case_sensitivity_witness :
    (∃ d, load_ranges (.tab tCaps) = .ok d) ∧
    load_ranges_csv_simple (.tab tCaps) = fallbackRanges :=
  ⟨(c5_header_case_sensitivity tCaps).1 (by decide),
   (c5_header_case_sensitivity tCaps).2.1 (by decide)⟩

/-! ## Claim C7 -/

/-- C7: invoked with no files at all, the upload handler returns the
`ok = false` / HTTP 400 empty-upload response and leaves the LatestResult
slot exactly as it was — absent if no successful upload ever happened,
otherwise the previously stored workbook bytes. -/
theorem c7_empty_upload_preserves_latest {α β : Type}
    (pipeline : List α → Except (List Char) β) (latest : Option β) :
    upload_and_highlight pipeline latest none none none = (⟨400, false⟩, latest) := rfl

/-! ## Claim C6: digit-string lemmas -/

theorem digitsVal_append_singleton (l : List Char) (c : Char) :
    digitsVal (l ++ [c]) = 10 * digitsVal l + (c.toNat - 48) := by
  unfold digitsVal
  rw [List.foldl_append]
  rfl

theorem natToCharsAux_val : ∀ fuel n : Nat, n ≤ fuel →
    digitsVal (natToCharsAux fuel n) = n := by
  intro fuel
  induction fuel with
  | zero =>
    intro n hn
    interval_cases n
    rfl
  | succ f ih =>
    intro n hn
    by_cases h0 : n = 0
    · subst h0
      rfl
    · rw [natToCharsAux, if_neg h0, digitsVal_append_singleton,
        ih (n / 10) (by omega), (digitChar_props (n % 10) (by omega)).2.2.2]
      omega

theorem natToChars_val (n : Nat) : digitsVal (natToChars n) = n := by
  by_cases h0 : n = 0
  · subst h0
    rfl
  · rw [natToChars, if_neg h0]
    exact natToCharsAux_val n n le_rfl

theorem natToChars_injective : Function.Injective natToChars := by
  intro a b h
  have := congrArg digitsVal h
  rwa [natToChars_val, natToChars_val] at this

theorem takeWhile_all_append (p : Char → Bool) (x : Char) (hx : p x = false) :
    ∀ (l r : List Char), (∀ c ∈ l, p c = true) →
      (l ++ x :: r).takeWhile p = l := by
  intro l
  induction l with
  | nil =>
    intro r _
    simp [List.takeWhile_cons, hx]
  | cons a as ih =>
    intro r hall
    rw [List.cons_append, List.takeWhile_cons, hall a (List.mem_cons_self a as)]
    rw [ih r (fun c hc => hall c (List.mem_cons_of_mem a hc))]
    rfl

theorem append_underscore_right_inj {A B A2 B2 : List Char}
    (hB : ∀ c ∈ B, c ≠ '_') (hB2 : ∀ c ∈ B2, c ≠ '_')
    (h : A ++ '_' :: B = A2 ++ '_' :: B2) : B = B2 := by
  have key : ∀ (X Y : List Char), (∀ c ∈ Y, c ≠ '_') →
      ((X ++ '_' :: Y).reverse.takeWhile (fun c => decide (c ≠ '_'))).reverse = Y := by
    intro X Y hY
    have hrev : (X ++ '_' :: Y).reverse = Y.reverse ++ '_' :: X.reverse := by
      rw [List.reverse_append, List.reverse_cons, List.append_assoc]
      rfl
    rw [hrev, takeWhile_all_append _ '_' (by simp) _ _
      (fun c hc => by simpa using hY c (List.mem_reverse.mp hc)), List.reverse_reverse]
  have h1 := key A B hB
  have h2 := key A2 B2 hB2
  rw [h] at h1
  rw [h2] at h1
  exact h1.symm

theorem candName_injective (p : List Char) : Function.Injective (candName p) := by
  intro n m h
  apply natToChars_injective
  exact append_underscore_right_inj
    (fun c hc => (natToChars_mem n c hc).2.2)
    (fun c hc => (natToChars_mem m c hc).2.2) h

theorem exists_free_candidate (existing : List (List Char)) (p : List Char) :
    ∃ k < existing.length + 1, candName p (2 + k) ∉ existing := by
  by_contra h
  push_neg at h
  have hinj : Function.Injective (fun k : Nat => candName p (2 + k)) := by
    intro a b hab
    have := candName_injective p hab
    omega
  have hnodup : ((List.range (existing.length + 1)).map
      (fun k => candName p (2 + k))).Nodup :=
    List.Nodup.map hinj (List.nodup_range (existing.length + 1))
  have hsub : ((List.range (existing.length + 1)).map
      (fun k => candName p (2 + k))) ⊆ existing := by
    intro x hx
    obtain ⟨k, hk, hkx⟩ := List.mem_map.mp hx
    rw [← hkx]
    exact h k (List.mem_range.mp hk)
  have hle := (List.subperm_of_subset hnodup hsub).length_le
  rw [List.length_map, List.length_range] at hle
  omega

theorem natToCharsAux_length : ∀ fuel n k : Nat, n ≤ fuel → n < 10 ^ k →
    (natToCharsAux fuel n).length ≤ k := by
  intro fuel
  induction fuel with
  | zero =>
    intro n k hn _
    interval_cases n
    simp [natToCharsAux]
  | succ f ih =>
    intro n k hn hk
    by_cases h0 : n = 0
    · subst h0
      simp [natToCharsAux]
    · rw [natToCharsAux, if_neg h0]
      obtain ⟨k2, hk2⟩ : ∃ k2, k = k2 + 1 := by
        refine ⟨k - 1, ?_⟩
        have : k ≠ 0 := by
          intro hzero
          rw [hzero, pow_zero] at hk
          omega
        omega
      subst hk2
      rw [List.length_append, List.length_singleton]
      have hdiv : n / 10 < 10 ^ k2 := by
        rw [Nat.div_lt_iff_lt_mul (by norm_num)]
        calc n < 10 ^ (k2 + 1) := hk
        _ = 10 ^ k2 * 10 := by ring
      have := ih (n / 10) k2 (by omega) hdiv
      omega

theorem natToChars_length_le (n k : Nat) (hn : n < 10 ^ k) (hk : 1 ≤ k) :
    (natToChars n).length ≤ k := by
  by_cases h0 : n = 0
  · subst h0
    simpa [natToChars] using hk
  · rw [natToChars, if_neg h0]
    exact natToCharsAux_length n n k le_rfl hn

theorem candName_length_le (p : List Char) (n : Nat) (hn : n < 10 ^ 30) :
    (candName p n).length ≤ 31 := by
  unfold candName
  rw [List.length_append, List.length_cons]
  have hd : (natToChars n).length ≤ 30 := natToChars_length_le n 30 hn (by norm_num)
  have ht : (p.take (31 - ('_' :: natToChars n).length)).length ≤
      31 - ('_' :: natToChars n).length := by
    rw [List.length_take]
    omega
  rw [List.length_cons] at ht
  omega

theorem pickLoop_spec (existing : List (List Char)) (p : List Char) :
    ∀ (fuel start : Nat), (∃ k < fuel, candName p (start + k) ∉ existing) →
    ∃ k < fuel, pickLoop existing p fuel start = candName p (start + k) ∧
      candName p (start + k) ∉ existing := by
  intro fuel
  induction fuel with
  | zero =>
    intro start h
    obtain ⟨k, hk, _⟩ := h
    omega
  | succ f ih =>
    intro start h
    rw [pickLoop]
    by_cases hc : candName p start ∈ existing
    · rw [if_pos hc]
      have hnext : ∃ k < f, candName p (start + 1 + k) ∉ existing := by
        obtain ⟨k, hk, hnot⟩ := h
        have hk0 : k ≠ 0 := by
          intro h0
          subst h0
          simp at hnot
          exact hnot hc
        refine ⟨k - 1, by omega, ?_⟩
        have : start + 1 + (k - 1) = start + k := by omega
        rw [this]
        exact hnot
      obtain ⟨k, hk, heq, hnot⟩ := ih (start + 1) hnext
      refine ⟨k + 1, by omega, ?_, ?_⟩
      · rw [heq]
        congr 1
        omega
      · have : start + (k + 1) = start + 1 + k := by omega
        rw [this]
        exact hnot
    · rw [if_neg hc]
      exact ⟨0, by omega, by rw [Nat.add_zero], by rw [Nat.add_zero]; exact hc⟩

theorem unique_sheet_name_spec (base : List Char) (existing : List (List Char)) :
    _unique_sheet_name base existing ∉ existing ∧
    (existing.length + 3 < 10 ^ 29 → (_unique_sheet_name base existing).length ≤ 31) ∧
    ((normalizeBase base).take 31 ∉ existing →
      _unique_sheet_name base existing = (normalizeBase base).take 31) := by
  unfold _unique_sheet_name
  by_cases hprop : (normalizeBase base).take 31 ∈ existing
  · rw [if_pos hprop]
    have hfree : ∃ k < existing.length + 1,
        candName ((normalizeBase base).take 31) (2 + k) ∉ existing :=
      exists_free_candidate existing ((normalizeBase base).take 31)
    obtain ⟨k, hk, heq, hnot⟩ := pickLoop_spec existing ((normalizeBase base).take 31)
      (existing.length + 1) 2 (by
        obtain ⟨k, hk, hn⟩ := hfree
        exact ⟨k, hk, hn⟩)
    refine ⟨by rw [heq]; exact hnot, ?_, fun h => absurd hprop h⟩
    intro hbound
    rw [heq]
    apply candName_length_le
    calc 2 + k ≤ existing.length + 3 := by omega
    _ < 10 ^ 29 := hbound
    _ < 10 ^ 30 := by norm_num
  · rw [if_neg hprop]
    exact ⟨hprop, fun _ => by rw [List.length_take]; omega, fun _ => rfl⟩

theorem assignSheetNames_spec : ∀ (bs existing : List (List Char)),
    existing.length + bs.length + 3 < 10 ^ 29 →
    (∀ nm ∈ assignSheetNames existing bs, nm ∉ existing) ∧
    (assignSheetNames existing bs).Nodup ∧
    (∀ nm ∈ assignSheetNames existing bs, nm.length ≤ 31) := by
  intro bs
  induction bs with
  | nil =>
    intro existing _
    exact ⟨by simp [assignSheetNames], by simp [assignSheetNames], by simp [assignSheetNames]⟩
  | cons b rest ih =>
    intro existing hbound
    simp only [List.length_cons] at hbound
    obtain ⟨hnotin, hlen, _⟩ := unique_sheet_name_spec b existing
    have hrec := ih (_unique_sheet_name b existing :: existing)
      (by simp only [List.length_cons]; omega)
    obtain ⟨hfresh, hnodup, hlens⟩ := hrec
    rw [assignSheetNames]
    refine ⟨?_, ?_, ?_⟩
    · intro nm hnm
      rcases List.mem_cons.mp hnm with h | h
      · rw [h]
        exact hnotin
      · intro hmem
        exact hfresh nm h (List.mem_cons_of_mem _ hmem)
    · rw [List.nodup_cons]
      refine ⟨?_, hnodup⟩
      intro hmem
      exact hfresh _ hmem (List.mem_cons_self _ _)
    · intro nm hnm
      rcases List.mem_cons.mp hnm with h | h
      · rw [h]
        exact hlen (by omega)
      · exact hlens nm h

/-! ## Claim C6 -/

/-- C6: over any sequence of proposed sheet names (of any realistic length —
a suffix of 30 decimal digits can never be reached), the deduplication
scheme yields pairwise distinct names of at most 31 characters; a proposal
not yet taken is kept after truncation to 31 characters; and the proposals
`Data, Data, Data` yield exactly `Data, Data_2, Data_3`. -/
theorem c6_sheet_name_dedup (proposals : List (List Char))
    (h : proposals.length + 3 < 10 ^ 29) :
    (assignSheetNames [] proposals).Nodup ∧
    (∀ nm ∈ assignSheetNames [] proposals, nm.length ≤ 31) ∧
    (∀ (existing : List (List Char)) (base : List Char),
      (normalizeBase base).take 31 ∉ existing →
      _unique_sheet_name base existing = (normalizeBase base).take 31) ∧
    assignSheetNames [] (["Data", "Data", "Data"].map (fun s => s.toList)) =
      ["Data", "Data_2", "Data_3"].map (fun s => s.toList) := by
  obtain ⟨_, hnodup, hlens⟩ := assignSheetNames_spec proposals []
    (by simpa using h)
  exact ⟨hnodup, hlens,
    fun existing base hfree => (unique_sheet_name_spec base existing).2.2 hfree,
    by decide⟩

/-- C6 witness: the concrete `Data, Data, Data` run. -/
theorem c6_sheet_name_dedup_witness :
    assignSheetNames [] (["Data", "Data", "Data"].map (fun s => s.toList)) =
      ["Data", "Data_2", "Data_3"].map (fun s => s.toList) ∧
    (assignSheetNames [] (["Data", "Data", "Data"].map (fun s => s.toList))).Nodup :=
  ⟨(c6_sheet_name_dedup (["Data", "Data", "Data"].map (fun s => s.toList))
      (by norm_num)).2.2.2,
   by
    rw [(c6_sheet_name_dedup (["Data", "Data", "Data"].map (fun s => s.toList))
      (by norm_num)).2.2.2]
    decide⟩
